import Mathlib

/-!
Shallow embedding of the trigger-handling core of
`src/examples/triggers/python/trigger_handler.py` (TAS MCP Python Trigger
Handler): the condition evaluator, the rate-limit gate, the per-action
retry loop and the trigger orchestrator, together with proofs of the
behavioural properties claimed for them.
-/

namespace TriggerModel

/-- Primitive Python values occurring in event data and condition literals:
`None`, booleans, integers and strings. -/
inductive Prim where
  | pnone : Prim
  | pbool : Bool → Prim
  | pint : Int → Prim
  | pstr : String → Prim
deriving DecidableEq, Repr

/-- A Python value as handled by `_evaluate_condition`: a primitive or a flat
list of primitives (condition literals such as `["staging", "production"]`). -/
inductive Value where
  | prim : Prim → Value
  | list : List Prim → Value
deriving DecidableEq, Repr

/-- Computable decidable equality for `Except`, so that concrete runs of the
fallible evaluator can be checked by `decide`. -/
instance {ε α : Type} [DecidableEq ε] [DecidableEq α] : DecidableEq (Except ε α)
  | .ok a, .ok b =>
    match decEq a b with
    | isTrue h => isTrue (h ▸ rfl)
    | isFalse h => isFalse fun hh => h (Except.ok.inj hh)
  | .ok _, .error _ => isFalse fun hh => Except.noConfusion hh
  | .error _, .ok _ => isFalse fun hh => Except.noConfusion hh
  | .error e, .error f =>
    match decEq e f with
    | isTrue h => isTrue (h ▸ rfl)
    | isFalse h => isFalse fun hh => h (Except.error.inj hh)

/-- Numeric view used by Python comparisons: booleans are the integers 0/1. -/
def toNum : Prim → Option Int
  | .pbool b => some (if b then 1 else 0)
  | .pint n => some n
  | _ => Option.none

/-- Python `==` on primitives: `None == None`, string equality, and numeric
equality with bool/int promotion; mixed kinds are unequal (no exception). -/
def primEq (a b : Prim) : Bool :=
  match a, b with
  | .pnone, .pnone => true
  | .pstr s, .pstr t => s == t
  | a, b =>
    match toNum a, toNum b with
    | some m, some n => m == n
    | _, _ => false

/-- Python `==` on values: element-wise list equality, list never equals a
primitive. -/
def pyEq (v w : Value) : Bool :=
  match v, w with
  | .prim a, .prim b => primEq a b
  | .list xs, .list ys =>
    xs.length == ys.length && (List.zip xs ys).all fun p => primEq p.1 p.2
  | _, _ => false

/-- Code-point comparison of characters, the base of Python's string order. -/
def charLtB (a b : Char) : Bool := decide (a < b)

/-- Lexicographic code-point order on character lists (Python string `<`). -/
def listCharLt : List Char → List Char → Bool
  | [], [] => false
  | [], _ :: _ => true
  | _ :: _, [] => false
  | a :: as, b :: bs => charLtB a b || (a == b && listCharLt as bs)

/-- Python `<` on primitives: numbers (bool promoted to int) and strings
compare; any other pair raises `TypeError`, modelled as `Except.error ()`. -/
def primLt (a b : Prim) : Except Unit Bool :=
  match a, b with
  | .pstr s, .pstr t => .ok (listCharLt s.toList t.toList)
  | a, b =>
    match toNum a, toNum b with
    | some m, some n => .ok (decide (m < n))
    | _, _ => .error ()

/-- Python `<` lexicographically on lists of primitives; the first unequal
pair decides, and its comparison may raise. -/
def primListLt : List Prim → List Prim → Except Unit Bool
  | [], [] => .ok false
  | [], _ :: _ => .ok true
  | _ :: _, [] => .ok false
  | x :: xs, y :: ys =>
    if primEq x y then primListLt xs ys else primLt x y

/-- Python `<` on values; a primitive and a list are never orderable. -/
def pyLt (v w : Value) : Except Unit Bool :=
  match v, w with
  | .prim a, .prim b => primLt a b
  | .list xs, .list ys => primListLt xs ys
  | _, _ => .error ()

/-- `leadsList needle hay`: `needle` is an initial segment of `hay`. -/
def leadsList : List Char → List Char → Bool
  | [], _ => true
  | _ :: _, [] => false
  | n :: ns, h :: hs => n == h && leadsList ns hs

/-- `occursIn needle hay`: `needle` occurs contiguously inside `hay`. -/
def occursIn (needle : List Char) : List Char → Bool
  | [] => needle.isEmpty
  | h :: hs => leadsList needle (h :: hs) || occursIn needle hs

/-- Python substring test `needle in hay` on strings. -/
def strContains (hay needle : String) : Bool :=
  occursIn needle.toList hay.toList

/-- Python membership `v in cv`: list membership via `==`, substring test when
`cv` is a string (raising unless `v` is a string too); other kinds of `cv`
raise `TypeError`. -/
def pyIn (v cv : Value) : Except Unit Bool :=
  match cv with
  | .list xs =>
    match v with
    | .prim a => .ok (xs.any fun x => primEq a x)
    | .list _ => .ok false
  | .prim (.pstr s) =>
    match v with
    | .prim (.pstr sub) => .ok (strContains s sub)
    | _ => .error ()
  | .prim _ => .error ()

/-- The operator enumeration `ConditionOperator` of the source. -/
inductive ConditionOperator where
  | eq | ne | gt | lt | gte | lte | contains | regex | inside | not_in
deriving DecidableEq, Repr

/-- A single trigger condition (`Condition` dataclass): dotted field path,
operator and literal value. -/
structure Condition where
  field : String
  operator : ConditionOperator
  value : Value
deriving DecidableEq, Repr

/-- The inbound event (`EventPayload`): id, type, source, structured data and
string metadata.  The timestamp plays no role in evaluation and is omitted. -/
structure EventPayload where
  event_id : String
  event_type : String
  source : String
  data : List (String × Value)
  metadata : List (String × String)
deriving DecidableEq, Repr

/-- First-match association-list lookup, the Python `dict` read. -/
def dictGet {α : Type} : List (String × α) → String → Option α
  | [], _ => Option.none
  | (k', v) :: rest, k => if k' = k then some v else dictGet rest k

/-- Python `dict` write: replace in place when the key exists (insertion order
kept), append otherwise. -/
def dictSet {α : Type} : List (String × α) → String → α → List (String × α)
  | [], k, v => [(k, v)]
  | (k', v') :: rest, k, v =>
    if k' = k then (k, v) :: rest else (k', v') :: dictSet rest k v

/-- `TriggerHandler._extract_value`: `event_type` and `source` resolve to the
top-level attributes, `data.<key>` and `metadata.<key>` look one level into
the mappings (missing key gives `None`), anything else gives `None`. -/
def extract_value (fieldPath : String) (p : EventPayload) : Value :=
  if fieldPath = "event_type" then .prim (.pstr p.event_type)
  else if fieldPath = "source" then .prim (.pstr p.source)
  else if leadsList "data.".toList fieldPath.toList then
    (dictGet p.data (fieldPath.drop 5)).getD (.prim .pnone)
  else if leadsList "metadata.".toList fieldPath.toList then
    match dictGet p.metadata (fieldPath.drop 9) with
    | some s => .prim (.pstr s)
    | Option.none => .prim .pnone
  else .prim .pnone

/-- `TriggerHandler._evaluate_condition`.  Comparison operators follow Python
semantics, so a `TypeError` (non-orderable operands, bad membership target) is
a raised exception, modelled as `Except.error ()`.  The `regex` operator has
no branch in the source and falls into the warn-and-return-false default. -/
def evaluate_condition (c : Condition) (p : EventPayload) : Except Unit Bool :=
  let v := extract_value c.field p
  match c.operator with
  | .eq => .ok (pyEq v c.value)
  | .ne => .ok (!pyEq v c.value)
  | .gt => pyLt c.value v
  | .lt => pyLt v c.value
  | .gte => (pyLt v c.value).map (!·)
  | .lte => (pyLt c.value v).map (!·)
  | .contains =>
    match v with
    | .prim (.pstr s) =>
      match c.value with
      | .prim (.pstr sub) => .ok (strContains s sub)
      | _ => .error ()
    | _ => .ok false
  | .inside => pyIn v c.value
  | .not_in => (pyIn v c.value).map (!·)
  | .regex => .ok false

/-- `TriggerHandler._evaluate_conditions`: short-circuiting AND over the
condition list; a raised comparison propagates. -/
def evaluate_conditions : List Condition → EventPayload → Except Unit Bool
  | [], _ => .ok true
  | c :: rest, p =>
    match evaluate_condition c p with
    | .error e => .error e
    | .ok b => if b then evaluate_conditions rest p else .ok false

/-- The action-kind enumeration `ActionType` of the source. -/
inductive ActionType where
  | http | grpc | kafka | redis | email | webhook
deriving DecidableEq, Repr

/-- The `Action` dataclass: kind, target, payload, timeout (time units),
retry budget and headers. -/
structure Action where
  type : ActionType
  target : String
  payload : List (String × Value)
  timeout : Nat
  retries : Nat
  headers : List (String × String)
deriving DecidableEq, Repr

/-- The `TriggerConfig` dataclass. -/
structure TriggerConfig where
  name : String
  conditions : List Condition
  actions : List Action
  enabled : Bool
  metadata : List (String × String)
  rate_limit : Option Nat
  cooldown : Option Nat
deriving DecidableEq, Repr

/-- Whether `_execute_action` routes this kind through a transport that can
raise: the HTTP, Kafka and Redis executors perform I/O; the gRPC executor is
a log-only stub that never raises; other kinds hit the warn-and-return
default branch. -/
def usesTransport : ActionType → Bool
  | .http | .kafka | .redis => true
  | _ => false

/-- Whether the kind has a dispatch branch at all in `_execute_action`. -/
def knownKind : ActionType → Bool
  | .http | .kafka | .redis | .grpc => true
  | _ => false

/-- Observable trace of one `_execute_action` call: loop iterations used,
backoff sleeps performed (in time units), and whether the call ultimately
re-raised the transport failure. -/
structure ActionTrace where
  attempts : Nat
  delays : List Nat
  raised : Bool
deriving DecidableEq, Repr

/-- The retry loop body of `_execute_action`, indexed by the current attempt
number and the retries remaining after it.  A failing attempt with retries
remaining sleeps `2 ^ attempt` and continues; a failing last attempt
re-raises; a successful attempt returns at once. -/
def execLoop (fails : Nat → Bool) (attempt : Nat) : Nat → ActionTrace
  | 0 => if fails attempt then ⟨1, [], true⟩ else ⟨1, [], false⟩
  | remaining + 1 =>
    if fails attempt then
      let t := execLoop fails (attempt + 1) remaining
      ⟨t.attempts + 1, 2 ^ attempt :: t.delays, t.raised⟩
    else ⟨1, [], false⟩

/-- `TriggerHandler._execute_action`: `retries + 1` loop iterations at most.
`fails i` abstracts whether the external transport raises on attempt `i`;
the gRPC stub never raises, and an unrecognised kind logs a warning and
returns inside the first iteration without dispatching. -/
def execute_action (fails : Nat → Bool) (a : Action) : ActionTrace :=
  if usesTransport a.type then execLoop fails 0 a.retries
  else ⟨1, [], false⟩

/-- One Redis counter entry: current count and absolute expiry time. -/
structure RedisEntry where
  count : Nat
  expiry : Nat
deriving DecidableEq, Repr

/-- The slice of Redis state the rate limiter touches, with the current
clock. -/
structure RedisState where
  now : Nat
  entries : List (String × RedisEntry)
deriving DecidableEq, Repr

/-- Redis `GET`: the count while the key has not expired, absent otherwise. -/
def RedisState.get (r : RedisState) (k : String) : Option Nat :=
  match dictGet r.entries k with
  | some e => if r.now < e.expiry then some e.count else Option.none
  | Option.none => Option.none

/-- The `INCR` + `EXPIRE key 60` pipeline of `_check_rate_limit`: increment
(an expired or absent key restarts at 1) and reset the window expiry to 60
time units from now. -/
def RedisState.incrExpire (r : RedisState) (k : String) : RedisState :=
  let c :=
    match dictGet r.entries k with
    | some e => if r.now < e.expiry then e.count + 1 else 1
    | Option.none => 1
  { r with entries := dictSet r.entries k ⟨c, r.now + 60⟩ }

/-- The Redis key used by the rate limiter for a trigger. -/
def rateLimitKey (name : String) : String := "rate_limit:" ++ name

/-- `TriggerHandler._check_rate_limit`.  Python truthiness: a missing or zero
`rate_limit`, or a missing Redis client, short-circuits to `True`.  Otherwise
an unexpired counter at or above the limit rejects; any other state accepts
and runs the increment/expire pipeline. -/
def check_rate_limit (redis : Option RedisState) (t : TriggerConfig) :
    Bool × Option RedisState :=
  match t.rate_limit with
  | Option.none => (true, redis)
  | some limit =>
    if limit = 0 then (true, redis)
    else
      match redis with
      | Option.none => (true, Option.none)
      | some r =>
        match r.get (rateLimitKey t.name) with
        | some c =>
          if limit ≤ c then (false, some r)
          else (true, some (r.incrExpire (rateLimitKey t.name)))
        | Option.none => (true, some (r.incrExpire (rateLimitKey t.name)))

/-- Per-trigger statistics (`trigger_stats` entries). -/
structure Stats where
  executions : Nat
  successes : Nat
  failures : Nat
deriving DecidableEq, Repr

/-- The zero statistics a fresh trigger entry starts from. -/
def Stats.zero : Stats := ⟨0, 0, 0⟩

/-- The handler state `_execute_trigger` reads and writes: the optional Redis
client's state and the statistics map. -/
structure HandlerState where
  redis : Option RedisState
  stats : List (String × Stats)
deriving DecidableEq, Repr

/-- Outcome of `_execute_trigger` for one trigger: skipped because disabled,
skipped by the rate-limit gate, or executed with the per-action raised
flags collected by `asyncio.gather(..., return_exceptions=True)`. -/
inductive TriggerOutcome where
  | disabled
  | rateLimited
  | executed : List Bool → TriggerOutcome
deriving DecidableEq, Repr

/-- `TriggerHandler._execute_trigger`: skip when disabled, gate through
`_check_rate_limit`, then bump `executions`, run every action (the oracle
`fails i j` says whether action `i`'s transport raises on attempt `j`),
gather all raised flags, and add the success/failure counts. -/
def execute_trigger (fails : Nat → Nat → Bool) (t : TriggerConfig)
    (s : HandlerState) : HandlerState × TriggerOutcome :=
  if t.enabled = false then (s, .disabled)
  else
    let gate := check_rate_limit s.redis t
    if gate.1 = false then ({ s with redis := gate.2 }, .rateLimited)
    else
      let prev := (dictGet s.stats t.name).getD Stats.zero
      let flags := (t.actions.enum).map fun ia =>
        (execute_action (fails ia.1) ia.2).raised
      let succ := flags.count false
      let st : Stats :=
        ⟨prev.executions + 1, prev.successes + succ,
          prev.failures + (flags.length - succ)⟩
      (⟨gate.2, dictSet s.stats t.name st⟩, .executed flags)

/-- The subsequence of triggers whose conditions all hold, in registry order
(the match loop of `process_event`); a raised condition evaluation aborts
event processing. -/
def matchingTriggers : List TriggerConfig → EventPayload →
    Except Unit (List TriggerConfig)
  | [], _ => .ok []
  | t :: ts, p =>
    match evaluate_conditions t.conditions p with
    | .error e => .error e
    | .ok b =>
      match matchingTriggers ts p with
      | .error e => .error e
      | .ok rest => .ok (if b then t :: rest else rest)

/-- Sequentially execute a list of matched triggers (the `await` loop of
`process_event`), threading state and collecting outcomes.  `fails` is
indexed by the trigger's position in the matched list. -/
def runTriggers (fails : Nat → Nat → Nat → Bool) :
    Nat → List TriggerConfig → HandlerState →
    HandlerState × List TriggerOutcome
  | _, [], s => (s, [])
  | i, t :: ts, s =>
    let r1 := execute_trigger (fails i) t s
    let r2 := runTriggers fails (i + 1) ts r1.1
    (r2.1, r1.2 :: r2.2)

/-- `TriggerHandler.process_event`: match the event against every registered
trigger, then execute each matching trigger in order. -/
def process_event (fails : Nat → Nat → Nat → Bool)
    (triggers : List TriggerConfig) (p : EventPayload) (s : HandlerState) :
    Except Unit (HandlerState × List TriggerOutcome) :=
  match matchingTriggers triggers p with
  | .error e => .error e
  | .ok matching => .ok (runTriggers fails 0 matching s)

/-- A value of the outbound message dict: either a payload value passed
through, or the serialized `Event` installed under the `"event"` key. -/
inductive MsgVal where
  | plain : Value → MsgVal
  | event : EventPayload → MsgVal
deriving DecidableEq, Repr

/-- The outbound message `{**action.payload, "event": payload.dict()}` built
by the HTTP/Kafka/Redis executors: the action payload as a dict, then the
`"event"` key set (overriding any payload entry of that name). -/
def merged_message (a : Action) (p : EventPayload) : List (String × MsgVal) :=
  dictSet (a.payload.map fun kv => (kv.1, MsgVal.plain kv.2)) "event"
    (MsgVal.event p)

/-- Advance the rate limiter's clock by `g` time units (Redis key expiry is
wall-clock driven). -/
def advanceState (s : HandlerState) (g : Nat) : HandlerState :=
  { s with redis := s.redis.map fun r => { r with now := r.now + g } }

/-- A timed sequence of fire attempts of one trigger: before each attempt the
clock advances by the corresponding gap. -/
def fireTimes (fails : Nat → Nat → Bool) (t : TriggerConfig) :
    List Nat → HandlerState → HandlerState × List TriggerOutcome
  | [], s => (s, [])
  | g :: gs, s =>
    let r1 := execute_trigger fails t (advanceState s g)
    let r2 := fireTimes fails t gs r1.1
    (r2.1, r1.2 :: r2.2)

/-- The four comparison operators routed through Python `<`. -/
def usesOrdering : ConditionOperator → Bool
  | .gt | .lt | .gte | .lte => true
  | _ => false

/-- Whether two primitives are of mutually orderable kinds under Python `<`:
both numeric (bool promoted) or both strings. -/
def primOrderable (a b : Prim) : Bool :=
  match a, b with
  | .pstr _, .pstr _ => true
  | a, b => (toNum a).isSome && (toNum b).isSome

/-- Whether two values are of mutually orderable kinds: orderable primitives,
or two lists (whose elements are then compared pairwise). -/
def kindsOrderable : Value → Value → Bool
  | .prim a, .prim b => primOrderable a b
  | .list _, .list _ => true
  | _, _ => false

/-- Recognise the absent sentinel (Python `None`). -/
def isNoneV : Value → Bool
  | .prim .pnone => true
  | _ => false

/-- Invariant of the rate-limit window after `k` accepted fires: either no
fire yet (no live key), or a live counter at `k` whose window expires 60
time units after the last fire. -/
def windowInv (t : TriggerConfig) (k : Nat) (r : RedisState) : Prop :=
  (k = 0 ∧ r.get (rateLimitKey t.name) = Option.none) ∨
  (0 < k ∧ dictGet r.entries (rateLimitKey t.name) = some ⟨k, r.now + 60⟩)

/-- A trigger shaped like the source's `critical-alert` default: rate limit
10 per window and a 300-unit cooldown. -/
def cooldownTrigger : TriggerConfig :=
  ⟨"critical-alert", [], [⟨.http, "u", [], 30, 0, []⟩], true, [], some 10,
    some 300⟩

/-- Redis state one time unit after a fire of `cooldownTrigger` at time 999:
the window counter is 1 (far below the limit of 10) and the cooldown of 300
has 299 units left to run. -/
def cooldownRedis : RedisState :=
  ⟨1000, [("rate_limit:critical-alert", ⟨1, 1059⟩)]⟩

theorem dictGet_dictSet_self {α : Type} (d : List (String × α)) (k : String)
    (v : α) : dictGet (dictSet d k v) k = some v := by
  induction d with
  | nil => simp [dictGet, dictSet]
  | cons kv rest ih =>
    by_cases h : kv.1 = k
    · simp [dictGet, dictSet, h]
    · simp [dictGet, dictSet, h, ih]

theorem dictGet_dictSet_ne {α : Type} (d : List (String × α)) (k k' : String)
    (v : α) (h : k' ≠ k) : dictGet (dictSet d k v) k' = dictGet d k' := by
  induction d with
  | nil => simp [dictGet, dictSet, Ne.symm h]
  | cons kv rest ih =>
    by_cases hk : kv.1 = k
    · subst hk
      simp [dictGet, dictSet, Ne.symm h]
    · by_cases hk' : kv.1 = k' <;> simp [dictGet, dictSet, hk, hk', ih, h]

theorem dictGet_map_value {α β : Type} (f : α → β) (d : List (String × α))
    (k : String) :
    dictGet (d.map fun kv => (kv.1, f kv.2)) k = (dictGet d k).map f := by
  induction d with
  | nil => simp [dictGet]
  | cons kv rest ih =>
    by_cases h : kv.1 = k <;> simp [dictGet, h, ih]

/-- C9: the outbound message built by the dispatcher is exactly the action
payload extended with an `"event"` key carrying the full serialized event;
the `"event"` binding wins over any payload entry of the same name, and every
other payload entry passes through unchanged. -/
theorem c9_merged_message (a : Action) (p : EventPayload) :
    dictGet (merged_message a p) "event" = some (MsgVal.event p) ∧
    ∀ k, k ≠ "event" →
      dictGet (merged_message a p) k = (dictGet a.payload k).map MsgVal.plain := by
  constructor
  · exact dictGet_dictSet_self _ _ _
  · intro k hk
    unfold merged_message
    rw [dictGet_dictSet_ne _ _ _ _ hk, dictGet_map_value]

theorem c9_merged_message_witness :
    (dictGet
        (merged_message
          ⟨.http, "u", [("a", .prim (.pint 1)), ("event", .prim (.pstr "shadow"))],
            30, 3, []⟩
          ⟨"e1", "user.created", "github", [], []⟩)
        "event" =
      some (MsgVal.event ⟨"e1", "user.created", "github", [], []⟩)) ∧
    dictGet
        (merged_message
          ⟨.http, "u", [("a", .prim (.pint 1)), ("event", .prim (.pstr "shadow"))],
            30, 3, []⟩
          ⟨"e1", "user.created", "github", [], []⟩)
        "a" =
      some (MsgVal.plain (.prim (.pint 1))) := by
  refine ⟨(c9_merged_message _ _).1, ?_⟩
  rw [(c9_merged_message
    ⟨.http, "u", [("a", .prim (.pint 1)), ("event", .prim (.pstr "shadow"))],
      30, 3, []⟩
    ⟨"e1", "user.created", "github", [], []⟩).2 "a" (by decide)]
  decide

/-- C10: with no Redis client the rate-limit gate always opens, so a
configured `rate_limit` is silently unenforced and every enabled trigger's
fire proceeds to dispatch. -/
theorem c10_no_redis_gate_open (t : TriggerConfig) :
    check_rate_limit Option.none t = (true, Option.none) ∧
    ∀ (fails : Nat → Nat → Bool) (stats : List (String × Stats)),
      t.enabled = true →
      ∃ flags, (execute_trigger fails t ⟨Option.none, stats⟩).2 =
        TriggerOutcome.executed flags := by
  have hgate : check_rate_limit Option.none t = (true, Option.none) := by
    unfold check_rate_limit
    cases t.rate_limit with
    | none => rfl
    | some limit =>
      by_cases h : limit = 0 <;> simp [h]
  refine ⟨hgate, ?_⟩
  intro fails stats hen
  refine ⟨(t.actions.enum).map fun ia => (execute_action (fails ia.1) ia.2).raised, ?_⟩
  simp [execute_trigger, hen, hgate]

theorem c10_no_redis_gate_open_witness :
    check_rate_limit Option.none cooldownTrigger = (true, Option.none) ∧
    ∃ flags,
      (execute_trigger (fun _ _ => false) cooldownTrigger
        ⟨Option.none, []⟩).2 = TriggerOutcome.executed flags := by
  exact ⟨(c10_no_redis_gate_open cooldownTrigger).1,
    (c10_no_redis_gate_open cooldownTrigger).2 (fun _ _ => false) [] rfl⟩

/-- C1 (code bug): the gating check `_check_rate_limit` never consults
`cooldown`.  Concretely, one time unit after a fire of the `critical-alert`
shaped trigger (cooldown 300, counter 1 of 10), a second fire passes the gate
and dispatches its actions; and the gate's result is invariant under any
change of the `cooldown` field. -/
theorem c1_cooldown_not_enforced :
    (check_rate_limit (some cooldownRedis) cooldownTrigger).1 = true ∧
    (execute_trigger (fun _ _ => false) cooldownTrigger
      ⟨some cooldownRedis, []⟩).2 = TriggerOutcome.executed [false] ∧
    ∀ (red : Option RedisState) (t : TriggerConfig) (c c' : Option Nat),
      check_rate_limit red { t with cooldown := c } =
        check_rate_limit red { t with cooldown := c' } := by
  refine ⟨by decide, by decide, ?_⟩
  intro red t c c'
  rfl

theorem primLt_error_of_not_orderable (a b : Prim)
    (h : primOrderable a b = false) : primLt a b = .error () := by
  cases a <;> cases b <;> simp_all [primOrderable, primLt, toNum]

theorem primOrderable_symm (a b : Prim) :
    primOrderable a b = primOrderable b a := by
  cases a <;> cases b <;> rfl

theorem pyLt_error_of_not_orderable (v w : Value)
    (h : kindsOrderable v w = false) :
    pyLt v w = .error () ∧ pyLt w v = .error () := by
  cases v with
  | prim a =>
    cases w with
    | prim b =>
      have hb : primOrderable a b = false := h
      have hb' : primOrderable b a = false := by rw [← primOrderable_symm]; exact hb
      exact ⟨primLt_error_of_not_orderable a b hb,
        primLt_error_of_not_orderable b a hb'⟩
    | list ys => exact ⟨rfl, rfl⟩
  | list xs =>
    cases w with
    | prim b => exact ⟨rfl, rfl⟩
    | list ys => simp [kindsOrderable] at h

theorem kindsOrderable_pnone (w : Value) :
    kindsOrderable (Value.prim Prim.pnone) w = false := by
  cases w with
  | prim b => cases b <;> rfl
  | list ys => rfl

/-- C2 counterexample: with operator `gte` and an absent field (the absent
sentinel is not orderable against the integer literal), the evaluator raises
a `TypeError` instead of returning false. -/
theorem c2_counterexample :
    evaluate_condition ⟨"data.severity", .gte, .prim (.pint 8)⟩
        ⟨"e1", "alert.critical", "src", [], []⟩ = .error () ∧
    evaluate_condition ⟨"data.severity", .gte, .prim (.pint 8)⟩
        ⟨"e1", "alert.critical", "src", [], []⟩ ≠ .ok false := by
  decide

theorem evaluate_ordering_error (c : Condition) (p : EventPayload)
    (hop : usesOrdering c.operator = true)
    (hord : kindsOrderable (extract_value c.field p) c.value = false) :
    evaluate_condition c p = .error () := by
  have h := pyLt_error_of_not_orderable _ _ hord
  cases hc : c.operator <;> simp [hc, usesOrdering] at hop <;>
    simp [evaluate_condition, hc, h.1, h.2, Except.map]

/-- C2 amended: for `gt`/`lt`/`gte`/`lte`, when the extracted value and the
literal are not of mutually orderable kinds — which is always the case when
the field is absent — evaluation raises a `TypeError` (it does not return
false). -/
theorem c2_amended_ordering_raises (c : Condition) (p : EventPayload)
    (hop : usesOrdering c.operator = true)
    (hord : kindsOrderable (extract_value c.field p) c.value = false) :
    evaluate_condition c p = .error () :=
  evaluate_ordering_error c p hop hord

theorem c2_amended_ordering_raises_witness :
    usesOrdering ConditionOperator.gt = true ∧
    kindsOrderable
        (extract_value "data.file_size" ⟨"e1", "data.file_uploaded", "src", [], []⟩)
        (Value.prim (Prim.pint 1024)) = false ∧
    evaluate_condition ⟨"data.file_size", .gt, .prim (.pint 1024)⟩
        ⟨"e1", "data.file_uploaded", "src", [], []⟩ = .error () := by
  exact ⟨by decide, by decide,
    c2_amended_ordering_raises ⟨"data.file_size", .gt, .prim (.pint 1024)⟩
      ⟨"e1", "data.file_uploaded", "src", [], []⟩ (by decide) (by decide)⟩

theorem pyEq_pnone (w : Value) : pyEq (.prim .pnone) w = isNoneV w := by
  cases w with
  | prim b => cases b <;> rfl
  | list ys => rfl

theorem any_primEq_pnone (xs : List Prim) :
    (xs.any fun x => primEq .pnone x) = decide (Prim.pnone ∈ xs) := by
  induction xs with
  | nil => simp
  | cons x rest ih =>
    have hx : primEq .pnone x = decide (Prim.pnone = x) := by
      cases x <;> rfl
    simp only [List.any_cons, hx, ih, List.mem_cons]
    by_cases hpx : Prim.pnone = x <;> by_cases hmem : Prim.pnone ∈ rest <;>
      simp [hpx, hmem]

/-- C4 counterexample: a `not_in` condition over an absent field evaluates to
true (Python `None not in ["a"]`), not false as claimed. -/
theorem c4_counterexample :
    evaluate_condition ⟨"data.x", .not_in, .list [.pstr "a"]⟩
      ⟨"e1", "t", "s", [], []⟩ = .ok true := by
  decide

/-- C4 amended: against an absent field, `eq` is true exactly when the
literal is itself `None`; `ne` is true exactly when it is not; `contains` is
false; `in` is true exactly when the literal list contains `None` and
`not_in` exactly when it does not (so `not_in` is typically true, not
false); and the ordering operators raise a `TypeError`. -/
theorem c4_amended_absent_field_eval (c : Condition) (p : EventPayload)
    (habs : extract_value c.field p = .prim .pnone) :
    (c.operator = .eq → evaluate_condition c p = .ok (isNoneV c.value)) ∧
    (c.operator = .ne → evaluate_condition c p = .ok (!isNoneV c.value)) ∧
    (c.operator = .contains → evaluate_condition c p = .ok false) ∧
    (usesOrdering c.operator = true → evaluate_condition c p = .error ()) ∧
    (∀ xs, c.value = .list xs → c.operator = .inside →
      evaluate_condition c p = .ok (decide (Prim.pnone ∈ xs))) ∧
    (∀ xs, c.value = .list xs → c.operator = .not_in →
      evaluate_condition c p = .ok (!decide (Prim.pnone ∈ xs))) := by
  refine ⟨?_, ?_, ?_, ?_, ?_, ?_⟩
  · intro hop
    simp [evaluate_condition, hop, habs, pyEq_pnone]
  · intro hop
    simp [evaluate_condition, hop, habs, pyEq_pnone]
  · intro hop
    simp [evaluate_condition, hop, habs]
  · intro hop
    exact evaluate_ordering_error c p hop
      (by rw [habs]; exact kindsOrderable_pnone c.value)
  · intro xs hval hop
    simp [evaluate_condition, hop, habs, hval, pyIn, any_primEq_pnone]
  · intro xs hval hop
    simp [evaluate_condition, hop, habs, hval, pyIn, any_primEq_pnone,
      Except.map]

theorem c4_amended_absent_field_eval_witness :
    extract_value "data.x" (⟨"e1", "t", "s", [], []⟩ : EventPayload) =
      .prim .pnone ∧
    evaluate_condition ⟨"data.x", .inside, .list [.pnone, .pstr "a"]⟩
      ⟨"e1", "t", "s", [], []⟩ =
      .ok (decide (Prim.pnone ∈ [Prim.pnone, Prim.pstr "a"])) := by
  refine ⟨by decide, ?_⟩
  exact (c4_amended_absent_field_eval
    ⟨"data.x", .inside, .list [.pnone, .pstr "a"]⟩
    ⟨"e1", "t", "s", [], []⟩ (by decide)).2.2.2.2.1
    [Prim.pnone, Prim.pstr "a"] rfl rfl

theorem usesTransport_false_of_unknown (ty : ActionType)
    (h : knownKind ty = false) : usesTransport ty = false := by
  cases ty <;> simp_all [knownKind, usesTransport]

/-- C3 counterexample: a trigger whose only action has the unimplemented kind
`email` executes with one success and zero failures even under an always-
failing transport oracle — the unknown kind is not counted as a failure. -/
theorem c3_counterexample :
    execute_trigger (fun _ _ => true)
      ⟨"t3", [], [⟨.email, "x", [], 30, 3, []⟩], true, [],
        Option.none, Option.none⟩
      ⟨Option.none, []⟩ =
      (⟨Option.none, [("t3", ⟨1, 1, 0⟩)]⟩, .executed [false]) := by
  decide

/-- C3 amended: an action whose kind has no dispatcher branch (`email`,
`webhook`) returns inside the first loop iteration — no dispatch, no retry,
no raise — and is therefore counted in the trigger's successes statistic,
not in its failures. -/
theorem c3_amended_unknown_kind_success (fails : Nat → Bool) (a : Action)
    (h : knownKind a.type = false) :
    execute_action fails a = ⟨1, [], false⟩ ∧
    ∀ (g : Nat → Nat → Bool) (t : TriggerConfig) (s : HandlerState),
      t.enabled = true → t.actions = [a] →
      (check_rate_limit s.redis t).1 = true →
      dictGet (execute_trigger g t s).1.stats t.name =
        some ⟨((dictGet s.stats t.name).getD Stats.zero).executions + 1,
              ((dictGet s.stats t.name).getD Stats.zero).successes + 1,
              ((dictGet s.stats t.name).getD Stats.zero).failures⟩ := by
  have hexec : ∀ f : Nat → Bool, execute_action f a = ⟨1, [], false⟩ := by
    intro f
    simp [execute_action, usesTransport_false_of_unknown _ h]
  refine ⟨hexec fails, ?_⟩
  intro g t s hen hok hact
  simp [execute_trigger, hen, hok, hact, List.enum, List.enumFrom, hexec,
    dictGet_dictSet_self]

theorem c3_amended_unknown_kind_success_witness :
    execute_action (fun _ => true) ⟨.webhook, "x", [], 30, 3, []⟩ =
      ⟨1, [], false⟩ ∧
    dictGet
        (execute_trigger (fun _ _ => true)
          ⟨"t3w", [], [⟨.webhook, "x", [], 30, 3, []⟩], true, [],
            Option.none, Option.none⟩
          ⟨Option.none, []⟩).1.stats "t3w" =
      some ⟨0 + 1, 0 + 1, 0⟩ := by
  refine ⟨(c3_amended_unknown_kind_success (fun _ => true)
    ⟨.webhook, "x", [], 30, 3, []⟩ rfl).1, ?_⟩
  have h := (c3_amended_unknown_kind_success (fun _ => true)
    ⟨.webhook, "x", [], 30, 3, []⟩ rfl).2 (fun _ _ => true)
    ⟨"t3w", [], [⟨.webhook, "x", [], 30, 3, []⟩], true, [],
      Option.none, Option.none⟩
    ⟨Option.none, []⟩ rfl rfl rfl
  simpa using h

theorem range_pow_shift (attempt n : Nat) :
    (2:Nat) ^ attempt :: ((List.range n).map fun j => 2 ^ (attempt + 1 + j)) =
      (List.range (n + 1)).map fun j => 2 ^ (attempt + j) := by
  have hfun : (fun j => (2:Nat) ^ (attempt + 1 + j)) =
      (fun j => (2:Nat) ^ (attempt + j)) ∘ Nat.succ := by
    funext j
    simp only [Function.comp]
    congr 1
    omega
  rw [List.range_succ_eq_map, List.map_cons, List.map_map, ← hfun]
  congr 1

theorem execLoop_all_fail (fails : Nat → Bool) (h : ∀ i, fails i = true) :
    ∀ (rem attempt : Nat),
      execLoop fails attempt rem =
        ⟨rem + 1, (List.range rem).map fun j => 2 ^ (attempt + j), true⟩ := by
  intro rem
  induction rem with
  | zero =>
    intro attempt
    simp [execLoop, h]
  | succ n ih =>
    intro attempt
    simp only [execLoop, h attempt, if_true]
    rw [ih (attempt + 1)]
    congr 1
    exact range_pow_shift attempt n

theorem execLoop_succ_at (fails : Nat → Bool) :
    ∀ (k rem attempt : Nat), k ≤ rem →
      (∀ i, i < k → fails (attempt + i) = true) →
      fails (attempt + k) = false →
      execLoop fails attempt rem =
        ⟨k + 1, (List.range k).map fun j => 2 ^ (attempt + j), false⟩ := by
  intro k
  induction k with
  | zero =>
    intro rem attempt _ _ hk
    have h0 : fails attempt = false := by simpa using hk
    cases rem with
    | zero => simp [execLoop, h0]
    | succ n => simp [execLoop, h0]
  | succ k ih =>
    intro rem attempt hle hall hk
    cases rem with
    | zero => omega
    | succ n =>
      have h0 : fails attempt = true := by simpa using hall 0 (by omega)
      have hall' : ∀ i, i < k → fails (attempt + 1 + i) = true := by
        intro i hi
        have hv := hall (i + 1) (by omega)
        have harith : attempt + (i + 1) = attempt + 1 + i := by omega
        rwa [harith] at hv
      have hk' : fails (attempt + 1 + k) = false := by
        have harith : attempt + (k + 1) = attempt + 1 + k := by omega
        rwa [harith] at hk
      simp only [execLoop, h0, if_true]
      rw [ih n (attempt + 1) (by omega) hall' hk']
      congr 1
      exact range_pow_shift attempt k

/-- C5: a transport action with retry budget `N` whose every attempt fails is
attempted exactly `N + 1` times, sleeping `2 ^ attempt` time units
(1, 2, 4, ...) before each retry, and the final failure is re-raised to the
caller; a first success at attempt `k` short-circuits all remaining
retries. -/
theorem c5_retry_policy (a : Action) (fails : Nat → Bool)
    (htr : usesTransport a.type = true) :
    ((∀ i, fails i = true) →
      execute_action fails a =
        ⟨a.retries + 1, (List.range a.retries).map fun j => 2 ^ j, true⟩) ∧
    (∀ k, k ≤ a.retries → (∀ i, i < k → fails i = true) → fails k = false →
      execute_action fails a =
        ⟨k + 1, (List.range k).map fun j => 2 ^ j, false⟩) := by
  have hea : execute_action fails a = execLoop fails 0 a.retries := by
    simp [execute_action, htr]
  constructor
  · intro h
    rw [hea, execLoop_all_fail fails h a.retries 0]
    simp
  · intro k hk hall hfk
    rw [hea, execLoop_succ_at fails k a.retries 0 hk
      (by simpa using hall) (by simpa using hfk)]
    simp

theorem c5_retry_policy_witness :
    execute_action (fun _ => true) ⟨.http, "u", [], 30, 3, []⟩ =
      ⟨3 + 1, (List.range 3).map fun j => 2 ^ j, true⟩ ∧
    execute_action (fun i => decide (i < 2)) ⟨.http, "u", [], 30, 3, []⟩ =
      ⟨2 + 1, (List.range 2).map fun j => 2 ^ j, false⟩ := by
  constructor
  · exact (c5_retry_policy ⟨.http, "u", [], 30, 3, []⟩ (fun _ => true)
      rfl).1 (fun _ => rfl)
  · exact (c5_retry_policy ⟨.http, "u", [], 30, 3, []⟩
      (fun i => decide (i < 2)) rfl).2 2 (by decide)
      (fun i hi => decide_eq_true hi) (by decide)

theorem execute_trigger_disabled (fails : Nat → Nat → Bool)
    (t : TriggerConfig) (s : HandlerState) (h : t.enabled = false) :
    execute_trigger fails t s = (s, TriggerOutcome.disabled) := by
  simp [execute_trigger, h]

theorem execute_trigger_rejected (fails : Nat → Nat → Bool)
    (t : TriggerConfig) (s : HandlerState) (hen : t.enabled = true)
    (hgate : check_rate_limit s.redis t = (false, s.redis)) :
    execute_trigger fails t s = (s, TriggerOutcome.rateLimited) := by
  simp [execute_trigger, hen, hgate]

theorem execute_trigger_gate_open (fails : Nat → Nat → Bool)
    (t : TriggerConfig) (s : HandlerState) (hen : t.enabled = true)
    (hgate : (check_rate_limit s.redis t).1 = true) :
    ∃ flags, (execute_trigger fails t s).2 = TriggerOutcome.executed flags := by
  refine ⟨(t.actions.enum).map
    (fun ia => (execute_action (fails ia.1) ia.2).raised), ?_⟩
  simp [execute_trigger, hen, hgate]

theorem execute_trigger_stats_other (fails : Nat → Nat → Bool)
    (t : TriggerConfig) (s : HandlerState) (n : String) (hn : t.name ≠ n) :
    dictGet (execute_trigger fails t s).1.stats n = dictGet s.stats n := by
  by_cases hen : t.enabled = false
  · simp [execute_trigger, hen]
  · by_cases hg : (check_rate_limit s.redis t).1 = false
    · simp [execute_trigger, hen, hg]
    · simp [execute_trigger, hen, hg,
        dictGet_dictSet_ne s.stats t.name n _ (Ne.symm hn)]

/-- C7: an accepted trigger fire with `k` actions records an outcome for
every one of the `k` actions (no sibling failure prevents an outcome from
being recorded), bumps `executions` by exactly 1, and adds success and
failure increments summing to exactly `k`. -/
theorem c7_fanout_aggregation (fails : Nat → Nat → Bool) (t : TriggerConfig)
    (s : HandlerState) (hen : t.enabled = true)
    (hok : (check_rate_limit s.redis t).1 = true) :
    ∃ flags : List Bool,
      (execute_trigger fails t s).2 = TriggerOutcome.executed flags ∧
      flags = (t.actions.enum).map
        (fun ia => (execute_action (fails ia.1) ia.2).raised) ∧
      flags.length = t.actions.length ∧
      dictGet (execute_trigger fails t s).1.stats t.name =
        some ⟨((dictGet s.stats t.name).getD Stats.zero).executions + 1,
              ((dictGet s.stats t.name).getD Stats.zero).successes +
                flags.count false,
              ((dictGet s.stats t.name).getD Stats.zero).failures +
                (flags.length - flags.count false)⟩ ∧
      flags.count false + (flags.length - flags.count false) =
        t.actions.length := by
  refine ⟨(t.actions.enum).map
    (fun ia => (execute_action (fails ia.1) ia.2).raised), ?_, rfl, ?_, ?_, ?_⟩
  · simp [execute_trigger, hen, hok]
  · simp
  · simp [execute_trigger, hen, hok, dictGet_dictSet_self]
  · have hle := List.count_le_length false ((t.actions.enum).map
      (fun ia => (execute_action (fails ia.1) ia.2).raised))
    have hln : ((t.actions.enum).map
      (fun ia => (execute_action (fails ia.1) ia.2).raised)).length =
        t.actions.length := by simp
    omega

theorem c7_fanout_aggregation_witness :
    ∃ flags : List Bool,
      (execute_trigger (fun i _ => decide (i = 0))
        ⟨"t7", [], [⟨.http, "u", [], 30, 1, []⟩, ⟨.kafka, "k", [], 30, 0, []⟩],
          true, [], Option.none, Option.none⟩
        ⟨Option.none, []⟩).2 = TriggerOutcome.executed flags ∧
      flags = (([⟨.http, "u", [], 30, 1, []⟩,
          ⟨.kafka, "k", [], 30, 0, []⟩] : List Action).enum).map
        (fun ia => (execute_action ((fun i _ => decide (i = 0)) ia.1)
          ia.2).raised) ∧
      flags.length = 2 ∧
      dictGet (execute_trigger (fun i _ => decide (i = 0))
        ⟨"t7", [], [⟨.http, "u", [], 30, 1, []⟩, ⟨.kafka, "k", [], 30, 0, []⟩],
          true, [], Option.none, Option.none⟩
        ⟨Option.none, []⟩).1.stats "t7" =
        some ⟨(Stats.zero).executions + 1,
              (Stats.zero).successes + flags.count false,
              (Stats.zero).failures + (flags.length - flags.count false)⟩ ∧
      flags.count false + (flags.length - flags.count false) = 2 := by
  exact c7_fanout_aggregation (fun i _ => decide (i = 0))
    ⟨"t7", [], [⟨.http, "u", [], 30, 1, []⟩, ⟨.kafka, "k", [], 30, 0, []⟩],
      true, [], Option.none, Option.none⟩
    ⟨Option.none, []⟩ rfl rfl

theorem matchingTriggers_mem (p : EventPayload) :
    ∀ (ts ms : List TriggerConfig), matchingTriggers ts p = .ok ms →
      ∀ u ∈ ms, u ∈ ts := by
  intro ts
  induction ts with
  | nil =>
    intro ms h u hu
    simp only [matchingTriggers] at h
    cases h
    simp at hu
  | cons t rest ih =>
    intro ms h u hu
    simp only [matchingTriggers] at h
    cases h1 : evaluate_conditions t.conditions p with
    | error e => rw [h1] at h; simp at h
    | ok b =>
      rw [h1] at h
      cases h2 : matchingTriggers rest p with
      | error e => rw [h2] at h; simp at h
      | ok ms' =>
        rw [h2] at h
        have hms : (if b = true then t :: ms' else ms') = ms :=
          Except.ok.inj h
        subst hms
        by_cases hb : b = true
        · rw [if_pos hb] at hu
          rcases List.mem_cons.mp hu with hu1 | hu2
          · exact hu1 ▸ List.mem_cons_self t rest
          · exact List.mem_cons_of_mem t (ih ms' h2 u hu2)
        · rw [if_neg hb] at hu
          exact List.mem_cons_of_mem t (ih ms' h2 u hu)

theorem runTriggers_stats_preserved (fails : Nat → Nat → Nat → Bool)
    (nm : String) :
    ∀ (ms : List TriggerConfig) (i : Nat) (s : HandlerState),
      (∀ u ∈ ms, u.name = nm → u.enabled = false) →
      dictGet (runTriggers fails i ms s).1.stats nm = dictGet s.stats nm := by
  intro ms
  induction ms with
  | nil => intro i s _; rfl
  | cons u rest ih =>
    intro i s hall
    simp only [runTriggers]
    rw [ih (i + 1) _
      (fun w hw hwn => hall w (List.mem_cons_of_mem _ hw) hwn)]
    by_cases hn : u.name = nm
    · have hdis : u.enabled = false := hall u (List.mem_cons_self _ _) hn
      rw [execute_trigger_disabled _ _ _ hdis]
    · exact execute_trigger_stats_other _ _ _ _ hn

/-- C8: a trigger with `enabled = false` is never dispatched: executing it is
a no-op returning the state unchanged with a `disabled` outcome, and
processing any event through a registry in which every trigger of that name
is disabled leaves that trigger's statistics untouched. -/
theorem c8_disabled_never_dispatches (t : TriggerConfig)
    (h : t.enabled = false) :
    (∀ (fails : Nat → Nat → Bool) (s : HandlerState),
      execute_trigger fails t s = (s, TriggerOutcome.disabled)) ∧
    (∀ (fails : Nat → Nat → Nat → Bool) (triggers : List TriggerConfig)
        (p : EventPayload) (s s' : HandlerState) (outs : List TriggerOutcome),
      (∀ u ∈ triggers, u.name = t.name → u.enabled = false) →
      process_event fails triggers p s = .ok (s', outs) →
      dictGet s'.stats t.name = dictGet s.stats t.name) := by
  refine ⟨fun fails s => execute_trigger_disabled fails t s h, ?_⟩
  intro fails triggers p s s' outs hall hpe
  unfold process_event at hpe
  cases hm : matchingTriggers triggers p with
  | error e => rw [hm] at hpe; simp at hpe
  | ok ms =>
    rw [hm] at hpe
    have hinj : runTriggers fails 0 ms s = (s', outs) := Except.ok.inj hpe
    have hrun := runTriggers_stats_preserved fails t.name ms 0 s
      (fun u hu => hall u (matchingTriggers_mem p triggers ms hm u hu))
    have h1 : (runTriggers fails 0 ms s).1 = s' := by rw [hinj]
    rw [← h1]
    exact hrun

theorem c8_disabled_never_dispatches_witness :
    (execute_trigger (fun _ _ => false)
      ⟨"off", [], [⟨.http, "u", [], 30, 3, []⟩], false, [],
        Option.none, Option.none⟩
      ⟨Option.none, [("off", ⟨4, 2, 2⟩)]⟩ =
      (⟨Option.none, [("off", ⟨4, 2, 2⟩)]⟩, TriggerOutcome.disabled)) ∧
    (∀ (s' : HandlerState) (outs : List TriggerOutcome),
      process_event (fun _ _ _ => false)
        [⟨"off", [], [⟨.http, "u", [], 30, 3, []⟩], false, [],
          Option.none, Option.none⟩]
        ⟨"e1", "t", "s", [], []⟩ ⟨Option.none, [("off", ⟨4, 2, 2⟩)]⟩ =
          .ok (s', outs) →
      dictGet s'.stats "off" =
        dictGet [("off", (⟨4, 2, 2⟩ : Stats))] "off") := by
  constructor
  · exact (c8_disabled_never_dispatches
      ⟨"off", [], [⟨.http, "u", [], 30, 3, []⟩], false, [],
        Option.none, Option.none⟩ rfl).1 (fun _ _ => false)
      ⟨Option.none, [("off", ⟨4, 2, 2⟩)]⟩
  · intro s' outs hpe
    exact (c8_disabled_never_dispatches
      ⟨"off", [], [⟨.http, "u", [], 30, 3, []⟩], false, [],
        Option.none, Option.none⟩ rfl).2 (fun _ _ _ => false) _ _ _ s' outs
      (by intro u hu _; simp at hu; rw [hu]) hpe

theorem get_none_advance (r : RedisState) (k : String) (g : Nat)
    (h : r.get k = Option.none) :
    RedisState.get ⟨r.now + g, r.entries⟩ k = Option.none := by
  unfold RedisState.get at h ⊢
  cases hd : dictGet r.entries k with
  | none => simp [hd]
  | some e =>
    rw [hd] at h
    simp only at h ⊢
    by_cases hlt : r.now < e.expiry
    · rw [if_pos hlt] at h
      exact absurd h (by simp)
    · rw [if_neg (show ¬ r.now + g < e.expiry by omega)]

theorem get_live (r : RedisState) (k : String) (cnt e : Nat)
    (hd : dictGet r.entries k = some ⟨cnt, e⟩) (hlt : r.now < e) :
    r.get k = some cnt := by
  unfold RedisState.get
  simp [hd, hlt]

theorem incrExpire_reset (r : RedisState) (k : String)
    (h : r.get k = Option.none) :
    RedisState.incrExpire r k =
      ⟨r.now, dictSet r.entries k ⟨1, r.now + 60⟩⟩ := by
  unfold RedisState.incrExpire RedisState.get at *
  cases hd : dictGet r.entries k with
  | none => simp [hd]
  | some e =>
    rw [hd] at h
    by_cases hlt : r.now < e.expiry
    · simp [hlt] at h
    · simp [hd, hlt]

theorem incrExpire_live (r : RedisState) (k : String) (cnt e : Nat)
    (hd : dictGet r.entries k = some ⟨cnt, e⟩) (hlt : r.now < e) :
    RedisState.incrExpire r k =
      ⟨r.now, dictSet r.entries k ⟨cnt + 1, r.now + 60⟩⟩ := by
  unfold RedisState.incrExpire
  simp [hd, hlt]

theorem check_rate_limit_accept_step (t : TriggerConfig) (N k : Nat)
    (hrl : t.rate_limit = some N) (hN : 0 < N) (hkN : k < N) (r : RedisState)
    (hinv : windowInv t k r) (g : Nat) (hg : g < 60) :
    check_rate_limit (some ⟨r.now + g, r.entries⟩) t =
      (true, some ⟨r.now + g, dictSet r.entries (rateLimitKey t.name)
        ⟨k + 1, r.now + g + 60⟩⟩) ∧
    windowInv t (k + 1) ⟨r.now + g, dictSet r.entries (rateLimitKey t.name)
      ⟨k + 1, r.now + g + 60⟩⟩ := by
  have hinv' : windowInv t (k + 1) ⟨r.now + g,
      dictSet r.entries (rateLimitKey t.name) ⟨k + 1, r.now + g + 60⟩⟩ :=
    Or.inr ⟨Nat.succ_pos k, by rw [dictGet_dictSet_self]⟩
  refine ⟨?_, hinv'⟩
  unfold check_rate_limit
  rw [hrl]
  simp only [if_neg (show ¬ N = 0 by omega)]
  rcases hinv with ⟨hk0, hget⟩ | ⟨hkpos, hd⟩
  · have hget' : RedisState.get ⟨r.now + g, r.entries⟩
        (rateLimitKey t.name) = Option.none := get_none_advance r _ g hget
    simp only [hget', incrExpire_reset ⟨r.now + g, r.entries⟩
      (rateLimitKey t.name) hget']
    rw [hk0]
  · have hlt : r.now + g < r.now + 60 := by omega
    have hget' : RedisState.get ⟨r.now + g, r.entries⟩
        (rateLimitKey t.name) = some k :=
      get_live ⟨r.now + g, r.entries⟩ _ k (r.now + 60) hd hlt
    simp only [hget']
    rw [if_neg (show ¬ N ≤ k by omega),
      incrExpire_live ⟨r.now + g, r.entries⟩ _ k (r.now + 60) hd hlt]

theorem check_rate_limit_reject_step (t : TriggerConfig) (N : Nat)
    (hrl : t.rate_limit = some N) (hN : 0 < N) (r : RedisState)
    (hd : dictGet r.entries (rateLimitKey t.name) = some ⟨N, r.now + 60⟩)
    (g : Nat) (hg : g < 60) :
    check_rate_limit (some ⟨r.now + g, r.entries⟩) t =
      (false, some ⟨r.now + g, r.entries⟩) := by
  unfold check_rate_limit
  rw [hrl]
  simp only [if_neg (show ¬ N = 0 by omega)]
  have hget' : RedisState.get ⟨r.now + g, r.entries⟩
      (rateLimitKey t.name) = some N :=
    get_live ⟨r.now + g, r.entries⟩ _ N (r.now + 60) hd
      (show r.now + g < r.now + 60 by omega)
  simp only [hget']
  rw [if_pos (le_refl N)]

theorem check_rate_limit_expired_accept (t : TriggerConfig) (N : Nat)
    (hrl : t.rate_limit = some N) (hN : 0 < N) (r : RedisState)
    (hd : dictGet r.entries (rateLimitKey t.name) = some ⟨N, r.now + 60⟩)
    (g : Nat) (hg : 60 ≤ g) :
    (check_rate_limit (some ⟨r.now + g, r.entries⟩) t).1 = true := by
  unfold check_rate_limit
  rw [hrl]
  simp only [if_neg (show ¬ N = 0 by omega)]
  have hget' : RedisState.get ⟨r.now + g, r.entries⟩
      (rateLimitKey t.name) = Option.none := by
    unfold RedisState.get
    simp only [hd]
    rw [if_neg (show ¬ r.now + g < r.now + 60 by omega)]
  simp only [hget']

theorem fire_step_accepted (fails : Nat → Nat → Bool) (t : TriggerConfig)
    (N k : Nat) (hen : t.enabled = true) (hrl : t.rate_limit = some N)
    (hN : 0 < N) (hkN : k < N) (s : HandlerState) (r : RedisState)
    (hred : s.redis = some r) (hinv : windowInv t k r) (g : Nat)
    (hg : g < 60) :
    ∃ flags : List Bool,
      (execute_trigger fails t (advanceState s g)).2 =
        TriggerOutcome.executed flags ∧
      (execute_trigger fails t (advanceState s g)).1.redis =
        some (⟨r.now + g, dictSet r.entries (rateLimitKey t.name)
          ⟨k + 1, r.now + g + 60⟩⟩ : RedisState) ∧
      windowInv t (k + 1) ⟨r.now + g,
        dictSet r.entries (rateLimitKey t.name) ⟨k + 1, r.now + g + 60⟩⟩ := by
  obtain ⟨hgate, hinv'⟩ :=
    check_rate_limit_accept_step t N k hrl hN hkN r hinv g hg
  have hadv : (advanceState s g).redis = some ⟨r.now + g, r.entries⟩ := by
    simp [advanceState, hred]
  have hgate2 : check_rate_limit (advanceState s g).redis t =
      (true, some ⟨r.now + g, dictSet r.entries (rateLimitKey t.name)
        ⟨k + 1, r.now + g + 60⟩⟩) := by
    rw [hadv]; exact hgate
  exact ⟨(t.actions.enum).map
    (fun ia => (execute_action (fails ia.1) ia.2).raised),
    by simp [execute_trigger, hen, hgate2],
    by simp [execute_trigger, hen, hgate2], hinv'⟩

theorem fireTimes_accepted (fails : Nat → Nat → Bool) (t : TriggerConfig)
    (N : Nat) (hen : t.enabled = true) (hrl : t.rate_limit = some N)
    (hN : 0 < N) :
    ∀ (gaps : List Nat) (k : Nat) (s : HandlerState) (r : RedisState),
      (∀ g ∈ gaps, g < 60) → k + gaps.length ≤ N →
      s.redis = some r → windowInv t k r →
      (∀ o ∈ (fireTimes fails t gaps s).2,
        ∃ flags, o = TriggerOutcome.executed flags) ∧
      ∃ r' : RedisState,
        (fireTimes fails t gaps s).1.redis = some r' ∧
        windowInv t (k + gaps.length) r' := by
  intro gaps
  induction gaps with
  | nil =>
    intro k s r _ _ hred hinv
    refine ⟨?_, r, ?_, ?_⟩
    · intro o ho
      simp [fireTimes] at ho
    · simpa [fireTimes] using hred
    · simpa using hinv
  | cons g gs ih =>
    intro k s r hg hlen hred hinv
    have hlen' : k + (gs.length + 1) ≤ N := by simpa using hlen
    obtain ⟨flags, hout, hredres, hinv'⟩ :=
      fire_step_accepted fails t N k hen hrl hN (by omega) s r hred hinv g
        (hg g (List.mem_cons_self g gs))
    obtain ⟨hall, r'', hred'', hinv''⟩ :=
      ih (k + 1) (execute_trigger fails t (advanceState s g)).1 _
        (fun x hx => hg x (List.mem_cons_of_mem g hx)) (by omega)
        hredres hinv'
    constructor
    · intro o ho
      simp only [fireTimes] at ho
      rcases List.mem_cons.mp ho with h1 | h2
      · exact ⟨flags, h1.trans hout⟩
      · exact hall o h2
    · refine ⟨r'', ?_, ?_⟩
      · simpa [fireTimes] using hred''
      · have harith : k + (g :: gs).length = (k + 1) + gs.length := by
          simp
          omega
        rw [harith]
        exact hinv''

/-- C6: with `rate_limit = N > 0` and a live Redis client, starting from a
fresh window, `N` fires each within 60 time units of the previous are all
accepted; a further attempt still inside the window is rejected, and the
rejection is a no-op (state — statistics and counter — unchanged, no actions
dispatched); once 60 time units have passed since the last accepted fire the
window has expired and fires resume. -/
theorem c6_rate_limit_window (fails : Nat → Nat → Bool) (t : TriggerConfig)
    (N : Nat) (hen : t.enabled = true) (hrl : t.rate_limit = some N)
    (hN : 0 < N) (s : HandlerState) (r : RedisState) (hred : s.redis = some r)
    (hfresh : r.get (rateLimitKey t.name) = Option.none)
    (gaps : List Nat) (hlen : gaps.length = N) (hg : ∀ g ∈ gaps, g < 60) :
    (∀ o ∈ (fireTimes fails t gaps s).2,
      ∃ flags, o = TriggerOutcome.executed flags) ∧
    (∀ g, g < 60 →
      execute_trigger fails t (advanceState (fireTimes fails t gaps s).1 g) =
        (advanceState (fireTimes fails t gaps s).1 g,
          TriggerOutcome.rateLimited)) ∧
    (∀ g, 60 ≤ g →
      ∃ flags, (execute_trigger fails t
        (advanceState (fireTimes fails t gaps s).1 g)).2 =
          TriggerOutcome.executed flags) := by
  have hinv0 : windowInv t 0 r := Or.inl ⟨rfl, hfresh⟩
  obtain ⟨hall, r', hred', hinv'⟩ :=
    fireTimes_accepted fails t N hen hrl hN gaps 0 s r hg (by omega)
      hred hinv0
  have hinvN : dictGet r'.entries (rateLimitKey t.name) =
      some ⟨N, r'.now + 60⟩ := by
    rcases hinv' with ⟨h0, _⟩ | ⟨_, hd⟩
    · omega
    · rw [Nat.zero_add, hlen] at hd
      exact hd
  have hadv : ∀ g, (advanceState (fireTimes fails t gaps s).1 g).redis =
      some (⟨r'.now + g, r'.entries⟩ : RedisState) := by
    intro g
    simp [advanceState, hred']
  refine ⟨hall, ?_, ?_⟩
  · intro g hg60
    apply execute_trigger_rejected fails t _ hen
    rw [hadv g]
    exact check_rate_limit_reject_step t N hrl hN r' hinvN g hg60
  · intro g hg60
    apply execute_trigger_gate_open fails t _ hen
    rw [hadv g]
    exact check_rate_limit_expired_accept t N hrl hN r' hinvN g hg60

theorem c6_rate_limit_window_witness :
    (∀ o ∈ (fireTimes (fun _ _ => false)
        ⟨"t6", [], [], true, [], some 2, Option.none⟩ [0, 10]
        ⟨some ⟨100, []⟩, []⟩).2,
      ∃ flags, o = TriggerOutcome.executed flags) ∧
    (∀ g, g < 60 →
      execute_trigger (fun _ _ => false)
          ⟨"t6", [], [], true, [], some 2, Option.none⟩
          (advanceState (fireTimes (fun _ _ => false)
            ⟨"t6", [], [], true, [], some 2, Option.none⟩ [0, 10]
            ⟨some ⟨100, []⟩, []⟩).1 g) =
        (advanceState (fireTimes (fun _ _ => false)
          ⟨"t6", [], [], true, [], some 2, Option.none⟩ [0, 10]
          ⟨some ⟨100, []⟩, []⟩).1 g, TriggerOutcome.rateLimited)) ∧
    (∀ g, 60 ≤ g →
      ∃ flags, (execute_trigger (fun _ _ => false)
          ⟨"t6", [], [], true, [], some 2, Option.none⟩
          (advanceState (fireTimes (fun _ _ => false)
            ⟨"t6", [], [], true, [], some 2, Option.none⟩ [0, 10]
            ⟨some ⟨100, []⟩, []⟩).1 g)).2 =
        TriggerOutcome.executed flags) := by
  exact c6_rate_limit_window (fun _ _ => false)
    ⟨"t6", [], [], true, [], some 2, Option.none⟩ 2 rfl rfl (by decide)
    ⟨some ⟨100, []⟩, []⟩ ⟨100, []⟩ rfl rfl [0, 10] rfl (by decide)

end TriggerModel
